import Mathlib

/-!
# Verification of the crypt compatibility shim

A shallow embedding of `build-scripts/crypt_compat.py` (the Python 3.13+
branch): the function `crypt(word, salt)` that normalises the password,
validates and parses a `$6$...` salt descriptor, and delegates to an
external SHA-512 crypt primitive (passlib's `sha512_crypt`).

Strings are modelled as `List Char` (Python `str` code points) and byte
strings as `List Nat` (each byte `< 256`).  The external hashing
primitive is not part of this repository, so `crypt` is parameterised
over it (`prim : List Char → List Char → Int → List Char`), matching the
spec's collaborator surface `hash_sha512_crypt(password, salt, rounds)`.
-/

namespace CryptCompat

/-- Python `s.split(sep)` for a single-character separator: splits at every
occurrence of `sep`, keeping empty segments; `"".split(sep) = ['']`. -/
def pySplit (sep : Char) : List Char → List (List Char)
  | [] => [[]]
  | c :: rest =>
    if c = sep then [] :: pySplit sep rest
    else (c :: (pySplit sep rest).headI) :: (pySplit sep rest).tail

/-- Python `s.startswith(p)`. -/
def pyStartswith : (s p : List Char) → Bool
  | _, [] => true
  | [], _ :: _ => false
  | c :: cs, p :: ps => p = c && pyStartswith cs ps

/-- Python whitespace characters stripped by `int()` (the ASCII ones). -/
def isPySpace (c : Char) : Bool :=
  c = ' ' || c = '\t' || c = '\n' || c = '\x0b' || c = '\x0c' || c = '\r'

/-- Strip leading and trailing whitespace, as Python `int()` does. -/
def pyStrip (s : List Char) : List Char :=
  ((s.dropWhile isPySpace).reverse.dropWhile isPySpace).reverse

/-- Continue parsing a Python integer literal after an initial digit:
digits, with single underscores allowed between digits (PEP 515). -/
def pyDigitsAux (acc : Nat) : List Char → Option Nat
  | [] => some acc
  | c :: rest =>
    if c.isDigit then pyDigitsAux (acc * 10 + (c.toNat - 48)) rest
    else if c = '_' then
      match rest with
      | [] => none
      | d :: rest2 =>
        if d.isDigit then pyDigitsAux (acc * 10 + (d.toNat - 48)) rest2
        else none
    else none

/-- Parse a non-empty unsigned decimal literal (Python digit grammar). -/
def pyDigits : List Char → Option Nat
  | [] => none
  | c :: rest => if c.isDigit then pyDigitsAux (c.toNat - 48) rest else none

/-- Python `int(s)` on a string: strip whitespace, optional sign, decimal
digits; `none` models the `ValueError` raised on anything else. -/
def pyParseInt (s : List Char) : Option Int :=
  match pyStrip s with
  | '+' :: rest => (pyDigits rest).map Int.ofNat
  | '-' :: rest => (pyDigits rest).map (fun n => -(Int.ofNat n))
  | rest => (pyDigits rest).map Int.ofNat

/-- UTF-8 encoding of a single code point (assumed a valid scalar value). -/
def utf8EncodeChar (n : Nat) : List Nat :=
  if n < 0x80 then [n]
  else if n < 0x800 then [0xC0 + n / 64, 0x80 + n % 64]
  else if n < 0x10000 then [0xE0 + n / 4096, 0x80 + n / 64 % 64, 0x80 + n % 64]
  else [0xF0 + n / 262144, 0x80 + n / 4096 % 64, 0x80 + n / 64 % 64, 0x80 + n % 64]

/-- UTF-8 encoding of a text string (Python `s.encode('utf-8')`). -/
def utf8Encode : List Char → List Nat
  | [] => []
  | c :: t => utf8EncodeChar c.toNat ++ utf8Encode t

/-- A UTF-8 continuation byte. -/
def isCont (b : Nat) : Bool := 0x80 ≤ b && b < 0xC0

/-- Tail of a two-byte UTF-8 sequence with lead byte `b0`. -/
def utf8Tail2 (b0 : Nat) : List Nat → Option (Nat × List Nat)
  | b1 :: rest1 =>
    if isCont b1 then some ((b0 - 0xC0) * 64 + (b1 - 0x80), rest1) else none
  | [] => none

/-- Tail of a three-byte UTF-8 sequence with lead byte `b0`; rejects
overlong encodings and surrogate code points. -/
def utf8Tail3 (b0 : Nat) : List Nat → Option (Nat × List Nat)
  | b1 :: b2 :: rest2 =>
    if isCont b1 && isCont b2 then
      if (b0 - 0xE0) * 4096 + (b1 - 0x80) * 64 + (b2 - 0x80) < 0x800 ∨
         (0xD800 ≤ (b0 - 0xE0) * 4096 + (b1 - 0x80) * 64 + (b2 - 0x80) ∧
          (b0 - 0xE0) * 4096 + (b1 - 0x80) * 64 + (b2 - 0x80) < 0xE000) then none
      else some ((b0 - 0xE0) * 4096 + (b1 - 0x80) * 64 + (b2 - 0x80), rest2)
    else none
  | _ => none

/-- Tail of a four-byte UTF-8 sequence with lead byte `b0`; rejects
overlong encodings and code points above U+10FFFF. -/
def utf8Tail4 (b0 : Nat) : List Nat → Option (Nat × List Nat)
  | b1 :: b2 :: b3 :: rest3 =>
    if isCont b1 && isCont b2 && isCont b3 then
      if (b0 - 0xF0) * 262144 + (b1 - 0x80) * 4096 + (b2 - 0x80) * 64 + (b3 - 0x80)
           < 0x10000 ∨
         0x110000 ≤ (b0 - 0xF0) * 262144 + (b1 - 0x80) * 4096 + (b2 - 0x80) * 64 +
           (b3 - 0x80) then none
      else some ((b0 - 0xF0) * 262144 + (b1 - 0x80) * 4096 + (b2 - 0x80) * 64 +
                 (b3 - 0x80), rest3)
    else none
  | _ => none

/-- Strict UTF-8 decoding of one code point, as Python `bytes.decode('utf-8')`:
rejects stray continuation bytes, overlong encodings, surrogates and
code points above U+10FFFF. -/
def utf8DecodeOne : List Nat → Option (Nat × List Nat)
  | [] => none
  | b0 :: rest =>
    if b0 < 0x80 then some (b0, rest)
    else if b0 < 0xC2 then none
    else if b0 < 0xE0 then utf8Tail2 b0 rest
    else if b0 < 0xF0 then utf8Tail3 b0 rest
    else if b0 < 0xF5 then utf8Tail4 b0 rest
    else none

/-- Fuel-indexed strict UTF-8 decoding of a whole byte string. -/
def utf8DecodeAux : Nat → List Nat → Option (List Nat)
  | _, [] => some []
  | 0, _ :: _ => none
  | fuel + 1, b :: bs =>
    (utf8DecodeOne (b :: bs)).bind (fun p => (utf8DecodeAux fuel p.2).map (p.1 :: ·))

/-- Strict UTF-8 decoding of a byte string into code points
(Python `bytes.decode('utf-8')`; `none` models `UnicodeDecodeError`). -/
def utf8Decode (bs : List Nat) : Option (List Nat) :=
  utf8DecodeAux bs.length bs

/-- A password, as the Python function accepts it: `str` or `bytes`. -/
inductive Password where
  | text (s : List Char)
  | bytes (b : List Nat)
deriving DecidableEq

/-- The errors `crypt` can raise, distinguished by their messages:
`UnicodeDecodeError` from decoding, the "Only SHA-512 crypt ($6$) is
supported, got: `salt[:3]`" `ValueError`, and the
"Invalid salt format: `salt`" `ValueError`. -/
inductive CryptError where
  | unicodeDecodeError
  | unsupportedScheme (pfx : List Char)
  | invalidSaltFormat (salt : List Char)
deriving DecidableEq

/-- Lines 42-43 of the source: bytes are decoded as UTF-8 (possibly
raising), text passes through. -/
def normalizeWord : Password → Option (List Char)
  | .text s => some s
  | .bytes b => (utf8Decode b).map (List.map Char.ofNat)

/-- Lines 46-72 of the source: the body of `crypt` after the password has
been normalised to text `w`: validate the `$6$` marker, split the salt
descriptor, resolve rounds and salt material, and call the primitive. -/
def cryptText (prim : List Char → List Char → Int → List Char)
    (w : List Char) (salt : List Char) : Except CryptError (List Char) :=
  if pyStartswith salt "$6$".toList then
    let parts := pySplit '$' salt
    if parts.length < 3 then Except.error (CryptError.invalidSaltFormat salt)
    else
      let seg2 := parts.getD 2 []
      if pyStartswith seg2 "rounds=".toList then
        let rounds_str := (pySplit '=' seg2).getD 1 []
        let rounds : Int := (pyParseInt rounds_str).getD 5000
        let salt_value := parts.getD 3 []
        Except.ok (prim w salt_value rounds)
      else
        Except.ok (prim w seg2 5000)
  else Except.error (CryptError.unsupportedScheme (salt.take 3))

/-- The `crypt(word, salt)` function of `crypt_compat.py` (Python 3.13+
branch), parameterised by the external SHA-512 crypt primitive `prim`
(passlib's `sha512_crypt.using(rounds, salt).hash`), taking the password,
the salt material and the round count. -/
def crypt (prim : List Char → List Char → Int → List Char)
    (word : Password) (salt : List Char) : Except CryptError (List Char) :=
  match normalizeWord word with
  | none => Except.error CryptError.unicodeDecodeError
  | some w => cryptText prim w salt

/-- A concrete stand-in hashing primitive, used to instantiate witnesses. -/
def testPrim (w s : List Char) (r : Int) : List Char :=
  w ++ s ++ (toString r).toList

/-- A concrete primitive whose outputs are crypt-formatted (prefixed by
`$6$`), as the spec assumes of the external SHA-512 crypt collaborator. -/
def testPrim6 (w s : List Char) (r : Int) : List Char :=
  '$' :: '6' :: '$' :: (s ++ w ++ (toString r).toList)

/-! ## Structural lemmas about the Python string helpers -/

theorem pySplit_ne_nil (sep : Char) (s : List Char) : pySplit sep s ≠ [] := by
  induction s with
  | nil => simp [pySplit]
  | cons c t ih =>
    simp only [pySplit]
    split <;> simp

theorem pySplit_no_sep (sep : Char) (s : List Char) (h : sep ∉ s) :
    pySplit sep s = [s] := by
  induction s with
  | nil => rfl
  | cons c t ih =>
    simp only [List.mem_cons, not_or] at h
    have hc : ¬ c = sep := fun hcs => h.1 hcs.symm
    simp [pySplit, hc, ih h.2]

theorem pyStartswith_iff (s p : List Char) :
    pyStartswith s p = true ↔ ∃ t, s = p ++ t := by
  induction p generalizing s with
  | nil => simp [pyStartswith]
  | cons q ps ih =>
    cases s with
    | nil => simp [pyStartswith]
    | cons c cs =>
      simp only [pyStartswith, Bool.and_eq_true, decide_eq_true_eq, ih,
        List.cons_append, List.cons.injEq]
      constructor
      · rintro ⟨rfl, t, rfl⟩
        exact ⟨t, rfl, rfl⟩
      · rintro ⟨t, rfl, rfl⟩
        exact ⟨rfl, t, rfl⟩

theorem pySplit_tag6 (rest : List Char) :
    pySplit '$' ('$' :: '6' :: '$' :: rest) = [] :: ['6'] :: pySplit '$' rest := by
  simp only [pySplit, if_pos rfl, if_neg (by decide : ¬ ('6' : Char) = '$')]
  cases h : pySplit '$' rest with
  | nil => exact absurd h (pySplit_ne_nil '$' rest)
  | cons a t => simp

theorem cryptText_tag6 (prim : List Char → List Char → Int → List Char)
    (w rest : List Char) :
    cryptText prim w ('$' :: '6' :: '$' :: rest) =
      if pyStartswith ((pySplit '$' rest).getD 0 []) "rounds=".toList then
        Except.ok (prim w ((pySplit '$' rest).getD 1 [])
          ((pyParseInt ((pySplit '=' ((pySplit '$' rest).getD 0 [])).getD 1 [])).getD 5000))
      else Except.ok (prim w ((pySplit '$' rest).getD 0 []) 5000) := by
  have h6 : pyStartswith ('$' :: '6' :: '$' :: rest) "$6$".toList = true := by
    rw [pyStartswith_iff]
    exact ⟨rest, rfl⟩
  have hne := pySplit_ne_nil '$' rest
  have hlen : ¬ ([] :: ['6'] :: pySplit '$' rest).length < 3 := by
    have := List.length_pos.mpr hne
    simp only [List.length_cons]
    omega
  simp only [cryptText, h6, if_true, pySplit_tag6, hlen, if_false, List.getD_cons_succ,
    List.getD_cons_zero]

/-- Any salt accepted by the `$6$` scheme check is of the form
`'$' :: '6' :: '$' :: rest`. -/
theorem startswith_tag6_shape (salt : List Char)
    (h : pyStartswith salt "$6$".toList = true) :
    ∃ rest, salt = '$' :: '6' :: '$' :: rest := by
  rw [pyStartswith_iff] at h
  exact h

/-! ## C1 -/

/-- C1: for a salt descriptor `$6$<salt-chars>` whose salt material contains
no `$` and does not begin with `rounds=`, `crypt` returns exactly the
reference SHA-512 crypt hash `prim pw <salt-chars> 5000`: default round
count 5000 and salt material `<salt-chars>`.  `prim` is the external
reference SHA-512 crypt primitive the shim delegates to. -/
theorem crypt_default_rounds (prim : List Char → List Char → Int → List Char)
    (w chars : List Char) (hnd : '$' ∉ chars)
    (hnr : pyStartswith chars "rounds=".toList = false) :
    crypt prim (Password.text w) ("$6$".toList ++ chars) =
      Except.ok (prim w chars 5000) := by
  have hsalt : "$6$".toList ++ chars = '$' :: '6' :: '$' :: chars := rfl
  rw [hsalt]
  show cryptText prim w ('$' :: '6' :: '$' :: chars) = Except.ok (prim w chars 5000)
  rw [cryptText_tag6, pySplit_no_sep '$' chars hnd]
  rw [if_neg (by simp only [List.getD_cons_zero]; rw [hnr]; simp)]
  simp

/-- Witness for C1 at the spec's example: `crypt(pw, "$6$abcdefgh")` is the
reference hash of `pw` with salt `abcdefgh` and rounds 5000. -/
theorem crypt_default_rounds_witness :
    '$' ∉ "abcdefgh".toList ∧
    pyStartswith "abcdefgh".toList "rounds=".toList = false ∧
    crypt testPrim (Password.text "pw".toList) ("$6$".toList ++ "abcdefgh".toList) =
      Except.ok (testPrim "pw".toList "abcdefgh".toList 5000) :=
  ⟨by decide, by decide,
    crypt_default_rounds testPrim "pw".toList "abcdefgh".toList (by decide) (by decide)⟩

theorem normalizeWord_text (s : List Char) :
    normalizeWord (Password.text s) = some s := rfl

theorem normalizeWord_bytes (b : List Nat) :
    normalizeWord (Password.bytes b) = (utf8Decode b).map (List.map Char.ofNat) := rfl

theorem crypt_eq (prim : List Char → List Char → Int → List Char)
    (word : Password) (salt : List Char) :
    crypt prim word salt =
      match normalizeWord word with
      | none => Except.error CryptError.unicodeDecodeError
      | some w => cryptText prim w salt := rfl

theorem crypt_of_normalize (prim : List Char → List Char → Int → List Char)
    (word : Password) (w salt : List Char) (hw : normalizeWord word = some w) :
    crypt prim word salt = cryptText prim w salt := by
  rw [crypt_eq, hw]

/-! ## The rounds branch (shared by C2, C3, C10) -/

theorem cryptText_rounds (prim : List Char → List Char → Int → List Char)
    (w salt : List Char) (h6 : pyStartswith salt "$6$".toList = true)
    (hr : pyStartswith ((pySplit '$' salt).getD 2 []) "rounds=".toList = true) :
    cryptText prim w salt =
      Except.ok (prim w ((pySplit '$' salt).getD 3 [])
        ((pyParseInt ((pySplit '=' ((pySplit '$' salt).getD 2 [])).getD 1 [])).getD 5000)) := by
  obtain ⟨rest, rfl⟩ := startswith_tag6_shape salt h6
  rw [pySplit_tag6] at hr
  simp only [List.getD_cons_succ, List.getD_cons_zero] at hr
  rw [cryptText_tag6, pySplit_tag6]
  simp only [List.getD_cons_succ, List.getD_cons_zero]
  rw [if_pos hr]

/-! ## C2 -/

/-- C2: when the third segment is `rounds=<N>` with `<N>` a parseable
integer, `crypt` calls the SHA-512 crypt primitive with round count
exactly `N` and with salt material the fourth segment if present, else
empty (`(pySplit '$' salt).getD 3 []`). -/
theorem crypt_rounds_exact (prim : List Char → List Char → Int → List Char)
    (w salt : List Char) (N : Int)
    (h6 : pyStartswith salt "$6$".toList = true)
    (hr : pyStartswith ((pySplit '$' salt).getD 2 []) "rounds=".toList = true)
    (hN : pyParseInt ((pySplit '=' ((pySplit '$' salt).getD 2 [])).getD 1 []) = some N) :
    crypt prim (Password.text w) salt =
      Except.ok (prim w ((pySplit '$' salt).getD 3 []) N) := by
  show cryptText prim w salt = _
  rw [cryptText_rounds prim w salt h6 hr, hN]
  rfl

/-- Witness for C2 at the spec's example: `crypt(pw, "$6$rounds=10000$abcdefgh")`
uses exactly 10000 rounds and salt material `abcdefgh`. -/
theorem crypt_rounds_exact_witness :
    pyStartswith "$6$rounds=10000$abcdefgh".toList "$6$".toList = true ∧
    pyStartswith ((pySplit '$' "$6$rounds=10000$abcdefgh".toList).getD 2 [])
      "rounds=".toList = true ∧
    pyParseInt ((pySplit '='
      ((pySplit '$' "$6$rounds=10000$abcdefgh".toList).getD 2 [])).getD 1 []) =
      some 10000 ∧
    crypt testPrim (Password.text "pw".toList) "$6$rounds=10000$abcdefgh".toList =
      Except.ok (testPrim "pw".toList
        ((pySplit '$' "$6$rounds=10000$abcdefgh".toList).getD 3 []) 10000) :=
  ⟨by decide, by decide, by decide,
    crypt_rounds_exact testPrim "pw".toList "$6$rounds=10000$abcdefgh".toList 10000
      (by decide) (by decide) (by decide)⟩

/-! ## C3 -/

/-- C3: an unparseable rounds value is not an error: `crypt` silently falls
back to the default round count 5000 and produces a hash. -/
theorem crypt_rounds_fallback (prim : List Char → List Char → Int → List Char)
    (w salt : List Char)
    (h6 : pyStartswith salt "$6$".toList = true)
    (hr : pyStartswith ((pySplit '$' salt).getD 2 []) "rounds=".toList = true)
    (hN : pyParseInt ((pySplit '=' ((pySplit '$' salt).getD 2 [])).getD 1 []) = none) :
    crypt prim (Password.text w) salt =
      Except.ok (prim w ((pySplit '$' salt).getD 3 []) 5000) := by
  show cryptText prim w salt = _
  rw [cryptText_rounds prim w salt h6 hr, hN]
  rfl

/-- Witness for C3 at the spec's example: `crypt(pw, "$6$rounds=notanumber$abcdefgh")`
does not fail and uses rounds 5000. -/
theorem crypt_rounds_fallback_witness :
    pyStartswith "$6$rounds=notanumber$abcdefgh".toList "$6$".toList = true ∧
    pyStartswith ((pySplit '$' "$6$rounds=notanumber$abcdefgh".toList).getD 2 [])
      "rounds=".toList = true ∧
    pyParseInt ((pySplit '='
      ((pySplit '$' "$6$rounds=notanumber$abcdefgh".toList).getD 2 [])).getD 1 []) =
      none ∧
    crypt testPrim (Password.text "pw".toList)
      "$6$rounds=notanumber$abcdefgh".toList =
      Except.ok (testPrim "pw".toList
        ((pySplit '$' "$6$rounds=notanumber$abcdefgh".toList).getD 3 []) 5000) :=
  ⟨by decide, by decide, by decide,
    crypt_rounds_fallback testPrim "pw".toList "$6$rounds=notanumber$abcdefgh".toList
      (by decide) (by decide) (by decide)⟩

/-! ## C10 -/

/-- C10: any rounds value that parses as an integer — the shim performs no
range or positivity check — is handed to the hashing primitive unchanged
as the round count `N` (in particular negative values such as `-5`). -/
theorem crypt_rounds_passthrough (prim : List Char → List Char → Int → List Char)
    (w salt : List Char) (N : Int)
    (h6 : pyStartswith salt "$6$".toList = true)
    (hr : pyStartswith ((pySplit '$' salt).getD 2 []) "rounds=".toList = true)
    (hN : pyParseInt ((pySplit '=' ((pySplit '$' salt).getD 2 [])).getD 1 []) = some N) :
    ∃ salt_value, crypt prim (Password.text w) salt =
      Except.ok (prim w salt_value N) := by
  refine ⟨(pySplit '$' salt).getD 3 [], ?_⟩
  show cryptText prim w salt = _
  rw [cryptText_rounds prim w salt h6 hr, hN]
  rfl

/-- Witness for C10 at a negative round count: `crypt(pw, "$6$rounds=-5$abc")`
passes rounds `-5` to the primitive, not the default 5000. -/
theorem crypt_rounds_passthrough_witness :
    pyStartswith "$6$rounds=-5$abc".toList "$6$".toList = true ∧
    pyStartswith ((pySplit '$' "$6$rounds=-5$abc".toList).getD 2 [])
      "rounds=".toList = true ∧
    pyParseInt ((pySplit '='
      ((pySplit '$' "$6$rounds=-5$abc".toList).getD 2 [])).getD 1 []) = some (-5) ∧
    (∃ salt_value, crypt testPrim (Password.text "pw".toList)
      "$6$rounds=-5$abc".toList = Except.ok (testPrim "pw".toList salt_value (-5))) :=
  ⟨by decide, by decide, by decide,
    crypt_rounds_passthrough testPrim "pw".toList "$6$rounds=-5$abc".toList (-5)
      (by decide) (by decide) (by decide)⟩

/-! ## C4 -/

/-- C4: a salt descriptor that does not start with the literal `$6$` marker
makes `crypt` fail with the unsupported-scheme `ValueError` reporting the
offending three-character salt prefix (Python `salt[:3]`), both for text
passwords and for byte passwords that decode as UTF-8. -/
theorem crypt_unsupported_scheme (prim : List Char → List Char → Int → List Char)
    (salt : List Char) (h : pyStartswith salt "$6$".toList = false) :
    (∀ w, crypt prim (Password.text w) salt =
      Except.error (CryptError.unsupportedScheme (salt.take 3))) ∧
    (∀ b cps, utf8Decode b = some cps → crypt prim (Password.bytes b) salt =
      Except.error (CryptError.unsupportedScheme (salt.take 3))) := by
  have hbody : ∀ w, cryptText prim w salt =
      Except.error (CryptError.unsupportedScheme (salt.take 3)) := by
    intro w
    unfold cryptText
    rw [if_neg (by rw [h]; simp)]
  constructor
  · intro w
    exact hbody w
  · intro b cps hd
    have hnw : normalizeWord (Password.bytes b) = some (cps.map Char.ofNat) := by
      rw [normalizeWord_bytes, hd]
      rfl
    rw [crypt_of_normalize prim (Password.bytes b) (cps.map Char.ofNat) salt hnw]
    exact hbody _

/-- Witness for C4 at the spec's example: `crypt(pw, "$5$abcdefgh")` fails
with the unsupported-scheme error, and the reported prefix is `$5$`. -/
theorem crypt_unsupported_scheme_witness :
    pyStartswith "$5$abcdefgh".toList "$6$".toList = false ∧
    crypt testPrim (Password.text "pw".toList) "$5$abcdefgh".toList =
      Except.error (CryptError.unsupportedScheme ("$5$abcdefgh".toList.take 3)) ∧
    "$5$abcdefgh".toList.take 3 = "$5$".toList :=
  ⟨by decide,
    (crypt_unsupported_scheme testPrim "$5$abcdefgh".toList (by decide)).1 "pw".toList,
    by decide⟩

/-! ## C5 (the claim is false on the code: the scheme check fires first) -/

/-- Counterexample to C5: at the concrete input `crypt("pw", "$6")` the code
raises the unsupported-scheme error (reporting `$6`), not the
"invalid salt format" (malformed-salt) error the claim requires. -/
theorem crypt_single_segment_cex :
    crypt testPrim (Password.text "pw".toList) "$6".toList =
      Except.error (CryptError.unsupportedScheme "$6".toList) ∧
    crypt testPrim (Password.text "pw".toList) "$6".toList ≠
      Except.error (CryptError.invalidSaltFormat "$6".toList) := by
  have h1 : crypt testPrim (Password.text "pw".toList) "$6".toList =
      Except.error (CryptError.unsupportedScheme "$6".toList) := rfl
  refine ⟨h1, fun hc => ?_⟩
  rw [h1] at hc
  simp at hc

/-- C5 amended: `crypt(pw, "$6")` fails, but with the unsupported-scheme
error reporting the prefix `$6`: the `$6$` marker check precedes the
segment-count check, and `"$6"` does not start with `$6$`, so the
malformed-salt branch is never reached for this input. -/
theorem crypt_single_segment (prim : List Char → List Char → Int → List Char)
    (w : List Char) :
    crypt prim (Password.text w) "$6".toList =
      Except.error (CryptError.unsupportedScheme "$6".toList) := by
  show cryptText prim w "$6".toList = _
  unfold cryptText
  rw [if_neg (by decide)]
  rfl

/-! ## C6 -/

/-- C6: a byte password that is not valid UTF-8 makes `crypt` fail with the
decoding error (`UnicodeDecodeError`), whatever the salt descriptor. -/
theorem crypt_invalid_utf8 (prim : List Char → List Char → Int → List Char)
    (b : List Nat) (salt : List Char) (h : utf8Decode b = none) :
    crypt prim (Password.bytes b) salt = Except.error CryptError.unicodeDecodeError := by
  rw [crypt_eq, normalizeWord_bytes, h]
  rfl

/-- Witness for C6 at the invalid byte sequence `[0xFF]`. -/
theorem crypt_invalid_utf8_witness :
    utf8Decode [255] = none ∧
    crypt testPrim (Password.bytes [255]) "$6$abc".toList =
      Except.error CryptError.unicodeDecodeError :=
  ⟨by decide, crypt_invalid_utf8 testPrim [255] "$6$abc".toList (by decide)⟩

/-! ## C9 -/

/-- C9: the "Invalid salt format" branch is dead code: any salt that passes
the `$6$` prefix check splits on `$` into at least 3 segments, and `crypt`
never returns the malformed-salt error on any input. -/
theorem crypt_malformed_unreachable :
    (∀ salt, pyStartswith salt "$6$".toList = true →
      3 ≤ (pySplit '$' salt).length) ∧
    (∀ (prim : List Char → List Char → Int → List Char) (word : Password)
      (salt s2 : List Char),
      crypt prim word salt ≠ Except.error (CryptError.invalidSaltFormat s2)) := by
  constructor
  · intro salt h6
    obtain ⟨rest, rfl⟩ := startswith_tag6_shape salt h6
    rw [pySplit_tag6]
    have := List.length_pos.mpr (pySplit_ne_nil '$' rest)
    simp only [List.length_cons]
    omega
  · intro prim word salt s2 hc
    rcases hw : normalizeWord word with _ | w
    · rw [crypt_eq, hw] at hc
      simp at hc
    · rw [crypt_of_normalize prim word w salt hw] at hc
      by_cases h6 : pyStartswith salt "$6$".toList = true
      · obtain ⟨rest, rfl⟩ := startswith_tag6_shape salt h6
        rw [cryptText_tag6] at hc
        revert hc
        split <;> simp
      · unfold cryptText at hc
        rw [if_neg h6] at hc
        simp at hc

/-- Witness for C9: `"$6$abc"` passes the prefix check and splits into at
least 3 segments, and a concrete call never yields the malformed-salt error. -/
theorem crypt_malformed_unreachable_witness :
    (pyStartswith "$6$abc".toList "$6$".toList = true ∧
      3 ≤ (pySplit '$' "$6$abc".toList).length) ∧
    crypt testPrim (Password.text "x".toList) "$6$abc".toList ≠
      Except.error (CryptError.invalidSaltFormat "zzz".toList) :=
  ⟨⟨by decide, crypt_malformed_unreachable.1 "$6$abc".toList (by decide)⟩,
    crypt_malformed_unreachable.2 testPrim (Password.text "x".toList)
      "$6$abc".toList "zzz".toList⟩

/-! ## C8 -/

/-- C8: assuming the external SHA-512 crypt primitive returns
crypt-formatted strings (prefixed by `$6$`), `crypt` on any valid password
(text, or bytes that decode) and any scheme-6 salt descriptor succeeds
with a hash starting with `$6$`; and the result is a pure, deterministic
function of its inputs — in this embedding `crypt` is a function of
`(prim, word, salt)` alone, there being no hidden state in the code, so
two calls on the same inputs are definitionally equal. -/
theorem crypt_pure_scheme6 (prim : List Char → List Char → Int → List Char)
    (hp : ∀ w s r, pyStartswith (prim w s r) "$6$".toList = true)
    (word : Password) (w salt : List Char)
    (hw : normalizeWord word = some w)
    (h6 : pyStartswith salt "$6$".toList = true) :
    (∃ out, crypt prim word salt = Except.ok out ∧
      pyStartswith out "$6$".toList = true) ∧
    crypt prim word salt = crypt prim word salt := by
  refine ⟨?_, rfl⟩
  rw [crypt_of_normalize prim word w salt hw]
  obtain ⟨rest, rfl⟩ := startswith_tag6_shape salt h6
  rw [cryptText_tag6]
  split
  · exact ⟨_, rfl, hp _ _ _⟩
  · exact ⟨_, rfl, hp _ _ _⟩

theorem testPrim6_tag6 (w s : List Char) (r : Int) :
    pyStartswith (testPrim6 w s r) "$6$".toList = true := by
  rw [pyStartswith_iff]
  exact ⟨_, rfl⟩

/-- Witness for C8 with a concrete crypt-formatted primitive. -/
theorem crypt_pure_scheme6_witness :
    (∀ w s r, pyStartswith (testPrim6 w s r) "$6$".toList = true) ∧
    normalizeWord (Password.text "pw".toList) = some "pw".toList ∧
    pyStartswith "$6$abc".toList "$6$".toList = true ∧
    ((∃ out, crypt testPrim6 (Password.text "pw".toList) "$6$abc".toList =
        Except.ok out ∧ pyStartswith out "$6$".toList = true) ∧
      crypt testPrim6 (Password.text "pw".toList) "$6$abc".toList =
        crypt testPrim6 (Password.text "pw".toList) "$6$abc".toList) :=
  ⟨testPrim6_tag6, rfl, by decide,
    crypt_pure_scheme6 testPrim6 testPrim6_tag6 (Password.text "pw".toList)
      "pw".toList "$6$abc".toList rfl (by decide)⟩

/-! ## UTF-8 roundtrip (for C7) -/

theorem utf8EncodeChar_ne_nil (n : Nat) : utf8EncodeChar n ≠ [] := by
  unfold utf8EncodeChar
  split
  · simp
  · split
    · simp
    · split <;> simp

theorem char_valid_nat (c : Char) :
    c.toNat < 0xD800 ∨ (0xDFFF < c.toNat ∧ c.toNat < 0x110000) := c.valid

theorem utf8DecodeOne_encodeChar (c : Char) (rest : List Nat) :
    utf8DecodeOne (utf8EncodeChar c.toNat ++ rest) = some (c.toNat, rest) := by
  have hv := char_valid_nat c
  set n := c.toNat with hn
  by_cases h1 : n < 0x80
  · rw [utf8EncodeChar, if_pos h1]
    simp only [List.singleton_append, utf8DecodeOne]
    rw [if_pos h1]
  · by_cases h2 : n < 0x800
    · rw [utf8EncodeChar, if_neg h1, if_pos h2]
      simp only [List.cons_append, List.nil_append, utf8DecodeOne]
      rw [if_neg (by omega), if_neg (by omega), if_pos (by omega)]
      simp only [utf8Tail2]
      rw [if_pos (by simp only [isCont, Bool.and_eq_true, decide_eq_true_eq]; omega)]
      simp only [Option.some.injEq, Prod.mk.injEq]
      exact ⟨by omega, trivial⟩
    · by_cases h3 : n < 0x10000
      · rw [utf8EncodeChar, if_neg h1, if_neg h2, if_pos h3]
        simp only [List.cons_append, List.nil_append, utf8DecodeOne]
        rw [if_neg (by omega), if_neg (by omega), if_neg (by omega), if_pos (by omega)]
        simp only [utf8Tail3]
        rw [if_pos (by simp only [isCont, Bool.and_eq_true, decide_eq_true_eq]; omega)]
        rw [if_neg (by omega)]
        simp only [Option.some.injEq, Prod.mk.injEq]
        exact ⟨by omega, trivial⟩
      · rw [utf8EncodeChar, if_neg h1, if_neg h2, if_neg h3]
        simp only [List.cons_append, List.nil_append, utf8DecodeOne]
        rw [if_neg (by omega), if_neg (by omega), if_neg (by omega), if_neg (by omega),
          if_pos (by omega)]
        simp only [utf8Tail4]
        rw [if_pos (by simp only [isCont, Bool.and_eq_true, decide_eq_true_eq]; omega)]
        rw [if_neg (by omega)]
        simp only [Option.some.injEq, Prod.mk.injEq]
        exact ⟨by omega, trivial⟩

theorem utf8DecodeAux_nil (fuel : Nat) : utf8DecodeAux fuel [] = some [] := by
  cases fuel <;> rfl

theorem utf8DecodeAux_encode (l : List Char) :
    ∀ fuel, (utf8Encode l).length ≤ fuel →
      utf8DecodeAux fuel (utf8Encode l) = some (l.map Char.toNat) := by
  induction l with
  | nil =>
    intro fuel _
    exact utf8DecodeAux_nil fuel
  | cons c t ih =>
    intro fuel hf
    have henc : utf8Encode (c :: t) = utf8EncodeChar c.toNat ++ utf8Encode t := rfl
    have hne : utf8EncodeChar c.toNat ≠ [] := utf8EncodeChar_ne_nil _
    have hlen1 : 0 < (utf8EncodeChar c.toNat).length := List.length_pos.mpr hne
    rw [henc] at hf ⊢
    rw [List.length_append] at hf
    cases fuel with
    | zero => omega
    | succ f =>
      have hx : ∃ b bs, utf8EncodeChar c.toNat = b :: bs := by
        rcases hy : utf8EncodeChar c.toNat with _ | ⟨b, bs⟩
        · exact absurd hy hne
        · exact ⟨b, bs, rfl⟩
      obtain ⟨b, bs, hb⟩ := hx
      rw [hb, List.cons_append]
      have hdec : utf8DecodeOne (b :: (bs ++ utf8Encode t)) =
          some (c.toNat, utf8Encode t) := by
        rw [← List.cons_append, ← hb]
        exact utf8DecodeOne_encodeChar c (utf8Encode t)
      simp only [utf8DecodeAux]
      rw [hdec, Option.some_bind,
        ih f (by rw [hb, List.length_cons] at hf; omega)]
      rfl

theorem utf8Decode_encode (l : List Char) :
    utf8Decode (utf8Encode l) = some (l.map Char.toNat) :=
  utf8DecodeAux_encode l _ le_rfl

theorem normalizeWord_encode (t : List Char) :
    normalizeWord (Password.bytes (utf8Encode t)) = some t := by
  rw [normalizeWord_bytes, utf8Decode_encode]
  simp [List.map_map, Function.comp_def]

/-! ## C7 -/

/-- C7: a valid UTF-8 byte password produces the same hash as the
equivalent text password: encoding a text password as UTF-8 bytes and
passing the bytes to `crypt` yields exactly the result of passing the
text, for every salt descriptor. -/
theorem crypt_bytes_text_agree (prim : List Char → List Char → Int → List Char)
    (t salt : List Char) :
    crypt prim (Password.bytes (utf8Encode t)) salt =
      crypt prim (Password.text t) salt := by
  rw [crypt_of_normalize prim _ t salt (normalizeWord_encode t),
    crypt_of_normalize prim _ t salt (normalizeWord_text t)]

end CryptCompat
